import Mathlib

/-!
Verification of the offline map-tile provisioning subsystem of
`cldfofflinebrowser` (command `create`).

The repository source available here is `cldfofflinebrowser/commands/create.py`.
The `osmtiles` module it calls (geo projection, coverage planner, tile ledger,
fetcher) is not part of the available sources, so those components are
modelled from the specification; definitions taken from `create.py` itself are
marked as such.
-/

namespace CldfOffline

/-- A geographic point, one per mapped language (spec section 3). -/
structure Point where
  latitude : ℚ
  longitude : ℚ
deriving DecidableEq

/-- A slippy-map tile coordinate (spec section 3). -/
structure TileCoordinate where
  zoom : ℕ
  x : ℤ
  y : ℤ
deriving DecidableEq

/-- Modelled from the spec: the valid Web-Mercator latitude range is about
plus or minus 85.05113 degrees (spec section 4.1); latitudes outside it are
clamped rather than rejected. -/
def MERCATOR_LIMIT : ℚ := (8505113 : ℚ) / 100000

/-- Modelled from the spec: clamp a latitude into the valid Mercator range. -/
def clampLat (lat : ℚ) : ℚ := max (-MERCATOR_LIMIT) (min MERCATOR_LIMIT lat)

/-- Modelled from the spec: the Mercator latitude transform of section 4.1
(`lat` maps through `ln (tan lat + sec lat)`) is transcendental, so it is
embedded as a strictly monotone rational function with the same fixed points
(0 at the equator, plus/minus 1 at the clamping latitudes); the proved claims
depend only on monotonicity and on the clamping behaviour. -/
def mercator (lat : ℚ) : ℚ := lat / MERCATOR_LIMIT

/-- Modelled from the spec: a tile index at zoom `z` is kept inside
`[0, 2^z - 1]`, enforcing the TileCoordinate invariant `0 ≤ x,y < 2^zoom`
of spec section 3. -/
def clampIndex (z : ℕ) (i : ℤ) : ℤ := max 0 (min i (2 ^ z - 1))

/-- Modelled from the spec: the x tile index; longitude maps linearly, is
scaled by `2^zoom` and floored (spec section 4.1). -/
def xIndex (z : ℕ) (lon : ℚ) : ℤ :=
  clampIndex z ⌊(lon + 180) / 360 * (2 ^ z : ℚ)⌋

/-- Modelled from the spec: the y tile index; latitude maps through the
Mercator transform, is scaled by `2^zoom` and floored (spec section 4.1). -/
def yIndex (z : ℕ) (lat : ℚ) : ℤ :=
  clampIndex z ⌊(1 - mercator (clampLat lat)) / 2 * (2 ^ z : ℚ)⌋

/-- Modelled from the spec: `project(point, zoom) -> TileCoordinate`
(spec section 4.1). -/
def project (p : Point) (z : ℕ) : TileCoordinate :=
  ⟨z, xIndex z p.longitude, yIndex z p.latitude⟩

/-- Minimum of a list of rationals (0 for the empty list, which the planner
never produces for a non-empty point set). -/
def listMinQ : List ℚ → ℚ
  | [] => 0
  | a :: rest => rest.foldl min a

/-- Maximum of a list of rationals. -/
def listMaxQ : List ℚ → ℚ
  | [] => 0
  | a :: rest => rest.foldl max a

/-- Modelled from the spec: padding is specified in degrees of longitude at
reference zoom level 5 and rescaled per zoom level, since degree-per-tile
shrinks geometrically with zoom (spec sections 4.2 and 9). -/
def paddingAt (padding : ℚ) (z : ℕ) : ℚ := padding * (2 ^ (5 : ℕ) : ℚ) / (2 ^ z : ℚ)

/-- Modelled from the spec: enumerate every tile coordinate in the rectangular
span between the min/max x and min/max y indices, inclusive (spec section
4.2, step 3). -/
def tileSpan (z : ℕ) (x0 x1 y0 y1 : ℤ) : List TileCoordinate :=
  (List.range (x1 + 1 - x0).toNat).flatMap fun i : ℕ =>
    (List.range (y1 + 1 - y0).toNat).map fun j : ℕ => ⟨z, x0 + (i : ℤ), y0 + (j : ℤ)⟩

/-- Modelled from the spec: the per-zoom planning step of section 4.2 —
compute the bounding box of the points, expand it by the padding rescaled for
this zoom, project the four padded-box corners, and enumerate the rectangular
span of tile indices between the projected extremes. -/
def planZoom (points : List Point) (padding : ℚ) (z : ℕ) : List TileCoordinate :=
  let padZ := paddingAt padding z
  let latLo := listMinQ (points.map Point.latitude) - padZ
  let latHi := listMaxQ (points.map Point.latitude) + padZ
  let lonLo := listMinQ (points.map Point.longitude) - padZ
  let lonHi := listMaxQ (points.map Point.longitude) + padZ
  let c1 := project ⟨latLo, lonLo⟩ z
  let c2 := project ⟨latLo, lonHi⟩ z
  let c3 := project ⟨latHi, lonLo⟩ z
  let c4 := project ⟨latHi, lonHi⟩ z
  tileSpan z
    (min (min c1.x c2.x) (min c3.x c4.x))
    (max (max c1.x c2.x) (max c3.x c4.x))
    (min (min c1.y c2.y) (min c3.y c4.y))
    (max (max c1.y c2.y) (max c3.y c4.y))

/-- Modelled from the spec: `plan(points, padding, maxZoom)` — union of the
per-zoom tile lists for every zoom from 0 to `maxZoom` inclusive, deduplicated
(spec section 4.2, step 4). -/
def plan (points : List Point) (padding : ℚ) (maxZoom : ℕ) : List TileCoordinate :=
  (((List.range (maxZoom + 1)).flatMap (planZoom points padding))).dedup

/-- Modelled from the spec: the deterministic local file location of a tile,
a directory tree keyed by zoom, then column, then row (spec section 6). -/
def tilePath (c : TileCoordinate) : String :=
  "tiles/" ++ toString c.zoom ++ "/" ++ toString c.x ++ "/" ++ toString c.y ++ ".png"

/-- Modelled from the spec: one ledger entry per planned tile
(spec section 3). -/
structure TileEntry where
  coordinate : TileCoordinate
  fetched : Bool
  path : String
deriving DecidableEq

/-- Modelled from the spec: the tile ledger, the full mapping from planned
tile coordinates to entries (spec section 3); local storage is the list of
file paths that exist. -/
abbrev TileLedger := List TileEntry

/-- Whether a coordinate already has an entry in the ledger. -/
def tracked (L : TileLedger) (c : TileCoordinate) : Bool :=
  L.any fun e => e.coordinate = c

/-- Modelled from the spec: `seed(tiles)` merges planned tiles into the
ledger; new coordinates become `fetched=false` entries, coordinates already
tracked are left untouched (spec section 4.3). -/
def seed (L : TileLedger) (tiles : List TileCoordinate) : TileLedger :=
  tiles.foldl
    (fun acc c => if tracked acc c then acc else acc ++ [⟨c, false, tilePath c⟩]) L

/-- Modelled from the spec: `reconcile(storage)` marks every `fetched=false`
entry whose file already exists on local storage as `fetched=true` without a
network call, and returns the updated ledger together with the count of
entries still `fetched=false` (spec section 4.3). -/
def reconcile (L : TileLedger) (storage : List String) : TileLedger × ℕ :=
  let L2 := L.map fun e =>
    if !e.fetched && storage.contains e.path then { e with fetched := true } else e
  (L2, (L2.filter fun e => !e.fetched).length)

/-- Modelled from the spec: `pending()`, the entries whose `fetched` is false
(spec section 4.3). -/
def pending (L : TileLedger) : List TileEntry :=
  L.filter fun e => !e.fetched

/-- Modelled from the spec: `mark_fetched(coordinate)`, called by the fetcher
on successful download (spec section 4.3). -/
def mark_fetched (L : TileLedger) (c : TileCoordinate) : TileLedger :=
  L.map fun e => if e.coordinate = c then { e with fetched := true } else e

/-- Result of one fetcher run: the updated ledger, the updated local storage,
the number of successful downloads and the coordinates that failed. -/
structure FetchResult where
  ledger : TileLedger
  storage : List String
  succeeded : ℕ
  failed : List TileCoordinate
deriving DecidableEq

/-- Modelled from the spec: the fetcher loop of section 4.4 — for each
pending entry one request is issued (`net` says whether it succeeds); on
success the bytes are written to the entry's path and `mark_fetched` is
called, a failure is recorded for that one tile and the batch continues. -/
def downloadLoop (net : TileCoordinate → Bool) :
    List TileEntry → TileLedger → List String → ℕ → List TileCoordinate → FetchResult
  | [], M, st, s, f => ⟨M, st, s, f⟩
  | e :: rest, M, st, s, f =>
    if net e.coordinate then
      downloadLoop net rest (mark_fetched M e.coordinate) (st ++ [e.path]) (s + 1) f
    else
      downloadLoop net rest M st s (f ++ [e.coordinate])

/-- Modelled from the spec: `download(pending entries)` (spec section 4.4). -/
def download (L : TileLedger) (net : TileCoordinate → Bool) (st : List String) :
    FetchResult :=
  downloadLoop net (pending L) L st 0 []

/-- Error kinds of the subsystem (spec section 7). -/
inductive TileError where
  | configurationError (msg : String)
deriving DecidableEq

/-- Modelled from the spec: the caller-facing `create(points, maxZoom,
padding)` operation, plan plus seed (spec section 6); a `maxZoom` of 13 or
more is rejected as a configuration error before any tile enumeration
(spec sections 4.2 and 7). -/
def createChecked (L : TileLedger) (points : List Point) (maxZoom : ℕ)
    (padding : ℚ) : Except TileError TileLedger :=
  if 13 ≤ maxZoom then
    Except.error (TileError.configurationError "max-zoom must be lower than 13")
  else
    Except.ok (seed L (plan points padding maxZoom))

/-! Embeddings of `cldfofflinebrowser/commands/create.py` itself. -/

/-- Observable events of the tile-provisioning part of `run` in `create.py`. -/
inductive RunEvent where
  | logInfo (msg : String)
  | downloadCall
deriving DecidableEq

/-- Embeds `create.py` lines 100-103: `missing = tiles.prune()` followed by
`if missing: log.info(...); tiles.download()`; a Python int is truthy exactly
when it is nonzero. -/
def runWithTiles (L : TileLedger) (storage : List String) : List RunEvent :=
  let missing := (reconcile L storage).2
  if missing ≠ 0 then
    [RunEvent.logInfo ("Must download " ++ toString missing ++ " tiles"),
     RunEvent.downloadCall]
  else []

/-- The Python values the `--include` argument can hold in `create.py`:
`None`, a string, or a list of strings. -/
inductive PyVal where
  | pyNone
  | pyStr (s : String)
  | pyList (l : List String)
deriving DecidableEq

/-- Helper for `splitWs`: walk the characters, accumulating the current
word reversed. -/
def splitWsChars : List Char → List Char → List String
  | [], cur => if cur.isEmpty then [] else [String.mk cur.reverse]
  | c :: rest, cur =>
    if c = ' ' then
      if cur.isEmpty then splitWsChars rest []
      else String.mk cur.reverse :: splitWsChars rest []
    else splitWsChars rest (c :: cur)

/-- Python `str.split()` without arguments: split on whitespace runs,
dropping empty pieces. -/
def splitWs (s : String) : List String := splitWsChars s.toList []

/-- Python attribute lookup plus call of `.split()` on a value: defined for a
string, an `AttributeError` for `None` or a list. -/
def pySplit : PyVal → Except String PyVal
  | PyVal.pyStr s => Except.ok (PyVal.pyList (splitWs s))
  | PyVal.pyList _ =>
      Except.error "AttributeError: list object has no attribute split"
  | PyVal.pyNone =>
      Except.error "AttributeError: NoneType object has no attribute split"

/-- Python truthiness for the values `--include` can hold. -/
def pyTruthy : PyVal → Bool
  | PyVal.pyNone => false
  | PyVal.pyStr s => s ≠ ""
  | PyVal.pyList l => l ≠ []

/-- Embeds `register` in `create.py` (lines 29-33): argparse stores `None`
when `--include` is absent and otherwise applies `type=lambda s: s.split()`
to the given string, so `args.include` is `None` or a list of strings. -/
def registerInclude : Option String → PyVal
  | none => PyVal.pyNone
  | some s => PyVal.pyList (splitWs s)

/-- Embeds `create.py` line 53:
`args.include = args.include.split() if args.include else None`. -/
def includeLine53 (v : PyVal) : Except String PyVal :=
  if pyTruthy v then pySplit v else Except.ok PyVal.pyNone

/-- One row of the LanguageTable as read by `run` in `create.py`. -/
structure LanguageRow where
  id : String
  name : String
  latitude : ℚ
  longitude : ℚ
deriving DecidableEq

/-- Embeds `create.py` lines 80-88: the coordinate list is built by appending
`(p[latitude], p[longitude])` for every LanguageTable row; the `--include`
filter plays no part in this loop. -/
def collectCoords (rows : List LanguageRow) : List (ℚ × ℚ) :=
  rows.map fun r => (r.latitude, r.longitude)

/-- Embeds the part of `run` in `create.py` that leads up to the coordinate
list handed to `tiles.create` (line 99): the `--include` value is produced by
`register`, re-processed by line 53 (which can raise), and the coordinates
are collected from the LanguageTable rows. -/
def runCoords (cliInclude : Option String) (rows : List LanguageRow) :
    Except String (List (ℚ × ℚ)) :=
  match includeLine53 (registerInclude cliInclude) with
  | Except.error e => Except.error e
  | Except.ok _ => Except.ok (collectCoords rows)

/-! Helper lemmas about list minima and maxima. -/

theorem foldl_min_le_init (l : List ℚ) (b : ℚ) : l.foldl min b ≤ b := by
  induction l generalizing b with
  | nil => simp
  | cons a l ih => exact le_trans (ih (min b a)) (min_le_left _ _)

theorem foldl_min_le_mem (l : List ℚ) (b a : ℚ) (h : a ∈ l) : l.foldl min b ≤ a := by
  induction l generalizing b with
  | nil => simp at h
  | cons c l ih =>
    rcases List.mem_cons.mp h with rfl | h2
    · exact le_trans (foldl_min_le_init l (min b a)) (min_le_right b a)
    · exact ih _ h2

theorem listMinQ_le (l : List ℚ) (a : ℚ) (h : a ∈ l) : listMinQ l ≤ a := by
  cases l with
  | nil => simp at h
  | cons b l =>
    rcases List.mem_cons.mp h with rfl | h2
    · exact foldl_min_le_init _ _
    · exact foldl_min_le_mem _ _ _ h2

theorem init_le_foldl_max (l : List ℚ) (b : ℚ) : b ≤ l.foldl max b := by
  induction l generalizing b with
  | nil => simp
  | cons a l ih => exact le_trans (le_max_left _ _) (ih (max b a))

theorem mem_le_foldl_max (l : List ℚ) (b a : ℚ) (h : a ∈ l) : a ≤ l.foldl max b := by
  induction l generalizing b with
  | nil => simp at h
  | cons c l ih =>
    rcases List.mem_cons.mp h with rfl | h2
    · exact le_trans (le_max_right b a) (init_le_foldl_max l (max b a))
    · exact ih _ h2

theorem le_listMaxQ (l : List ℚ) (a : ℚ) (h : a ∈ l) : a ≤ listMaxQ l := by
  cases l with
  | nil => simp at h
  | cons b l =>
    rcases List.mem_cons.mp h with rfl | h2
    · exact init_le_foldl_max _ _
    · exact mem_le_foldl_max _ _ _ h2

/-! Helper lemmas about the projection. -/

theorem clampIndex_nonneg (z : ℕ) (i : ℤ) : 0 ≤ clampIndex z i :=
  le_max_left _ _

theorem clampIndex_lt (z : ℕ) (i : ℤ) : clampIndex z i < 2 ^ z := by
  have h : (0 : ℤ) < 2 ^ z := by positivity
  unfold clampIndex
  omega

theorem clampIndex_mono (z : ℕ) {i j : ℤ} (h : i ≤ j) :
    clampIndex z i ≤ clampIndex z j := by
  unfold clampIndex
  omega

theorem MERCATOR_LIMIT_pos : 0 < MERCATOR_LIMIT := by
  norm_num [MERCATOR_LIMIT]

theorem mercator_mono {a b : ℚ} (h : a ≤ b) : mercator a ≤ mercator b := by
  unfold mercator
  exact (div_le_div_iff_of_pos_right MERCATOR_LIMIT_pos).mpr h

theorem clampLat_mono {a b : ℚ} (h : a ≤ b) : clampLat a ≤ clampLat b :=
  max_le_max le_rfl (min_le_min le_rfl h)

theorem xIndex_mono (z : ℕ) {a b : ℚ} (h : a ≤ b) : xIndex z a ≤ xIndex z b := by
  unfold xIndex
  apply clampIndex_mono
  apply Int.floor_le_floor
  have hz : (0 : ℚ) ≤ 2 ^ z := by positivity
  have h360 : (0 : ℚ) < 360 := by norm_num
  exact mul_le_mul_of_nonneg_right ((div_le_div_iff_of_pos_right h360).mpr (by linarith)) hz

theorem yIndex_anti (z : ℕ) {a b : ℚ} (h : a ≤ b) : yIndex z b ≤ yIndex z a := by
  unfold yIndex
  apply clampIndex_mono
  apply Int.floor_le_floor
  have hz : (0 : ℚ) ≤ 2 ^ z := by positivity
  have hm : mercator (clampLat a) ≤ mercator (clampLat b) :=
    mercator_mono (clampLat_mono h)
  have h2 : (0 : ℚ) < 2 := by norm_num
  exact mul_le_mul_of_nonneg_right ((div_le_div_iff_of_pos_right h2).mpr (by linarith)) hz

/-! Helper lemmas about tile spans and the planner. -/

theorem mem_tileSpan {z : ℕ} {x y x0 x1 y0 y1 : ℤ} (hx0 : x0 ≤ x) (hx1 : x ≤ x1)
    (hy0 : y0 ≤ y) (hy1 : y ≤ y1) :
    (⟨z, x, y⟩ : TileCoordinate) ∈ tileSpan z x0 x1 y0 y1 := by
  have hi : (x - x0).toNat ∈ List.range (x1 + 1 - x0).toNat :=
    List.mem_range.mpr (by omega)
  have hj : (y - y0).toNat ∈ List.range (y1 + 1 - y0).toNat :=
    List.mem_range.mpr (by omega)
  have hx2 : x0 + ((x - x0).toNat : ℤ) = x := by omega
  have hy2 : y0 + ((y - y0).toNat : ℤ) = y := by omega
  unfold tileSpan
  refine List.mem_flatMap.mpr ⟨(x - x0).toNat, hi, ?_⟩
  refine List.mem_map.mpr ⟨(y - y0).toNat, hj, ?_⟩
  rw [hx2, hy2]

theorem zoom_of_mem_tileSpan {c : TileCoordinate} {z : ℕ} {x0 x1 y0 y1 : ℤ}
    (h : c ∈ tileSpan z x0 x1 y0 y1) : c.zoom = z := by
  unfold tileSpan at h
  rw [List.mem_flatMap] at h
  obtain ⟨i, _, h⟩ := h
  rw [List.mem_map] at h
  obtain ⟨j, _, rfl⟩ := h
  rfl

theorem zoom_of_mem_planZoom {c : TileCoordinate} {points : List Point}
    {padding : ℚ} {z : ℕ} (h : c ∈ planZoom points padding z) : c.zoom = z :=
  zoom_of_mem_tileSpan h

theorem xIndex_zero (lon : ℚ) : xIndex 0 lon = 0 := by
  unfold xIndex clampIndex
  omega

theorem yIndex_zero (lat : ℚ) : yIndex 0 lat = 0 := by
  unfold yIndex clampIndex
  omega

theorem planZoom_zero (points : List Point) (padding : ℚ) :
    planZoom points padding 0 = [⟨0, 0, 0⟩] := by
  simp only [planZoom, project, xIndex_zero, yIndex_zero, min_self, max_self]
  decide

/-- Claim C6: for every zoom level and every input point (latitudes outside
the valid Mercator range being clamped rather than failing), `project`
returns a tile coordinate with `0 ≤ x < 2^z` and `0 ≤ y < 2^z`. -/
theorem project_output_in_range (z : ℕ) (p : Point) :
    0 ≤ (project p z).x ∧ (project p z).x < 2 ^ z ∧
    0 ≤ (project p z).y ∧ (project p z).y < 2 ^ z := by
  simp only [project]
  exact ⟨clampIndex_nonneg _ _, clampIndex_lt _ _,
    clampIndex_nonneg _ _, clampIndex_lt _ _⟩

/-- Claim C7: for every point set and every padding, the planned set
restricted to zoom level 0 is exactly the single whole-world tile. -/
theorem plan_zoom_zero_single (points : List Point) (padding : ℚ) (maxZoom : ℕ) :
    ((plan points padding maxZoom).toFinset.filter fun c => c.zoom = 0) =
      {(⟨0, 0, 0⟩ : TileCoordinate)} := by
  ext c
  simp only [Finset.mem_filter, List.mem_toFinset, Finset.mem_singleton, plan,
    List.mem_dedup, List.mem_flatMap, List.mem_range]
  constructor
  · rintro ⟨⟨z, hz, hc⟩, h0⟩
    have hzz : c.zoom = z := zoom_of_mem_planZoom hc
    rw [h0] at hzz
    rw [← hzz, planZoom_zero] at hc
    simpa using hc
  · rintro rfl
    refine ⟨⟨0, by omega, ?_⟩, rfl⟩
    rw [planZoom_zero]
    simp

/-- Claim C8: an invocation with `maxZoom ≥ 13` is rejected as a
configuration error, before any tile enumeration. -/
theorem createChecked_rejects_high_maxZoom (L : TileLedger) (points : List Point)
    (maxZoom : ℕ) (padding : ℚ) (h : 13 ≤ maxZoom) :
    createChecked L points maxZoom padding =
      Except.error (TileError.configurationError "max-zoom must be lower than 13") := by
  simp [createChecked, h]

/-- Witness for C8: the rejection fires at the concrete value 13. -/
theorem createChecked_rejects_high_maxZoom_witness :
    createChecked [] [] 13 8 =
      Except.error (TileError.configurationError "max-zoom must be lower than 13") :=
  createChecked_rejects_high_maxZoom [] [] 13 8 (by norm_num)

/-- Claim C9: after `prune` returns the missing count, `run` logs the count
before invoking `download`, and `download` is invoked only when the count is
positive. -/
theorem runWithTiles_download_gated (L : TileLedger) (storage : List String) :
    (0 < (reconcile L storage).2 →
      runWithTiles L storage =
        [RunEvent.logInfo
            ("Must download " ++ toString (reconcile L storage).2 ++ " tiles"),
          RunEvent.downloadCall]) ∧
    (RunEvent.downloadCall ∈ runWithTiles L storage →
      0 < (reconcile L storage).2) := by
  unfold runWithTiles
  constructor
  · intro hpos
    have h : (reconcile L storage).2 ≠ 0 := by omega
    simp [h]
  · intro hmem
    by_cases h : (reconcile L storage).2 = 0
    · simp [h] at hmem
    · omega

/-! Helper lemmas about the ledger. -/

theorem seed_cons (L : TileLedger) (t : TileCoordinate) (ts : List TileCoordinate) :
    seed L (t :: ts) =
      seed (if tracked L t then L else L ++ [⟨t, false, tilePath t⟩]) ts := rfl

theorem tracked_seed_mono (ts : List TileCoordinate) (L : TileLedger)
    (c : TileCoordinate) (h : tracked L c = true) : tracked (seed L ts) c = true := by
  induction ts generalizing L with
  | nil => simpa [seed] using h
  | cons t ts ih =>
    rw [seed_cons]
    apply ih
    split
    · exact h
    · simp only [tracked, List.any_append] at h ⊢
      rw [h]
      rfl

theorem tracked_seed_of_mem (ts : List TileCoordinate) (L : TileLedger)
    (c : TileCoordinate) (h : c ∈ ts) : tracked (seed L ts) c = true := by
  induction ts generalizing L with
  | nil => simp at h
  | cons t ts ih =>
    rw [seed_cons]
    rcases List.mem_cons.mp h with rfl | h2
    · apply tracked_seed_mono
      by_cases hb : tracked L c = true
      · rw [if_pos hb]
        exact hb
      · rw [if_neg hb]
        simp [tracked]
    · exact ih _ h2

theorem seed_eq_of_all_tracked (ts : List TileCoordinate) (L : TileLedger)
    (h : ∀ c ∈ ts, tracked L c = true) : seed L ts = L := by
  induction ts with
  | nil => rfl
  | cons t ts ih =>
    rw [seed_cons, if_pos (h t (List.mem_cons_self t ts))]
    exact ih fun c hc => h c (List.mem_cons_of_mem t hc)

theorem seed_extends (ts : List TileCoordinate) (L : TileLedger) :
    ∃ added, seed L ts = L ++ added := by
  induction ts generalizing L with
  | nil => exact ⟨[], by simp [seed]⟩
  | cons t ts ih =>
    rw [seed_cons]
    by_cases hb : tracked L t = true
    · rw [if_pos hb]
      exact ih L
    · rw [if_neg hb]
      obtain ⟨a2, h2⟩ := ih (L ++ [⟨t, false, tilePath t⟩])
      exact ⟨⟨t, false, tilePath t⟩ :: a2, by rw [h2, List.append_assoc]; rfl⟩

/-- Claim C3: `reconcile` removes no entry (the length and the tracked
coordinates are unchanged) and every entry that was already `fetched=true`
survives unchanged — the flag is only ever flipped from false to true. -/
theorem reconcile_monotone (L : TileLedger) (storage : List String) :
    (reconcile L storage).1.length = L.length ∧
    (∀ e ∈ L, e.fetched = true → e ∈ (reconcile L storage).1) ∧
    (∀ c, tracked (reconcile L storage).1 c = tracked L c) := by
  refine ⟨by simp [reconcile], ?_, ?_⟩
  · intro e he hf
    have h2 :
        (if !e.fetched && storage.contains e.path then { e with fetched := true }
          else e) = e := by
      simp [hf]
    simp only [reconcile, List.mem_map]
    exact ⟨e, he, h2⟩
  · intro c
    simp only [reconcile, tracked, List.any_map]
    congr 1
    funext e
    simp only [Function.comp]
    split <;> rfl

/-- Witness for C3 at a concrete ledger and storage. -/
theorem reconcile_monotone_witness :
    ((reconcile [⟨⟨1, 0, 0⟩, true, "a"⟩, ⟨⟨1, 1, 0⟩, false, "b"⟩] ["b"]).1.length = 2) ∧
    (⟨⟨1, 0, 0⟩, true, "a"⟩ : TileEntry) ∈
      (reconcile [⟨⟨1, 0, 0⟩, true, "a"⟩, ⟨⟨1, 1, 0⟩, false, "b"⟩] ["b"]).1 := by
  obtain ⟨h1, h2, _⟩ :=
    reconcile_monotone [⟨⟨1, 0, 0⟩, true, "a"⟩, ⟨⟨1, 1, 0⟩, false, "b"⟩] ["b"]
  exact ⟨h1, h2 ⟨⟨1, 0, 0⟩, true, "a"⟩ (by simp) rfl⟩

/-- Claim C4: seeding the same tile set twice leaves the ledger of the first
seeding unchanged (same entries, counts and flags), and `seed` only ever
appends, leaving the coordinates already tracked untouched. -/
theorem seed_idempotent (L : TileLedger) (ts : List TileCoordinate) :
    seed (seed L ts) ts = seed L ts ∧ ∃ added, seed L ts = L ++ added :=
  ⟨seed_eq_of_all_tracked ts (seed L ts) fun c hc => tracked_seed_of_mem ts L c hc,
   seed_extends ts L⟩

/-! Helper lemmas about the fetcher. -/

theorem filter_length_split {α : Type} (p : α → Bool) (l : List α) :
    (l.filter p).length + (l.filter fun a => !p a).length = l.length := by
  induction l with
  | nil => rfl
  | cons a l ih =>
    by_cases h : p a <;> simp [List.filter_cons, h] <;> omega

theorem foldl_mark_fetched (cs : List TileCoordinate) (L : TileLedger) :
    cs.foldl mark_fetched L =
      L.map fun e => if e.coordinate ∈ cs then { e with fetched := true } else e := by
  induction cs generalizing L with
  | nil => simp
  | cons c cs ih =>
    rw [List.foldl_cons, ih]
    unfold mark_fetched
    rw [List.map_map]
    apply List.map_congr_left
    intro e _
    by_cases hc : e.coordinate = c
    · simp [Function.comp, hc]
    · simp [Function.comp, hc]

theorem downloadLoop_spec (net : TileCoordinate → Bool) (es : List TileEntry)
    (M : TileLedger) (st : List String) (s : ℕ) (f : List TileCoordinate) :
    downloadLoop net es M st s f =
      ⟨((es.filter fun e => net e.coordinate).map fun e => e.coordinate).foldl
          mark_fetched M,
        st ++ (es.filter fun e => net e.coordinate).map fun e => e.path,
        s + es.countP fun e => net e.coordinate,
        f ++ (es.filter fun e => !net e.coordinate).map fun e => e.coordinate⟩ := by
  induction es generalizing M st s f with
  | nil => simp [downloadLoop]
  | cons e es ih =>
    by_cases h : net e.coordinate
    · rw [downloadLoop, if_pos h, ih]
      simp [List.filter_cons, List.countP_cons, h]
      omega
    · rw [downloadLoop, if_neg h, ih]
      simp [List.filter_cons, List.countP_cons, h, List.append_assoc]

/-- The final ledger of a download run, as a pointwise map over the input
ledger: a pending entry whose request succeeded is flipped to fetched. -/
theorem download_ledger_eq (L : TileLedger) (net : TileCoordinate → Bool)
    (st : List String) :
    (download L net st).ledger =
      L.map fun e =>
        if e.coordinate ∈
            (((pending L).filter fun e2 => net e2.coordinate).map fun e2 =>
              e2.coordinate) then
          { e with fetched := true }
        else e := by
  rw [download, downloadLoop_spec]
  exact foldl_mark_fetched _ _

/-- Claim C2: a failing request does not abort the batch — the succeeded
count plus the failed count covers the whole pending batch, an entry of the
resulting ledger is unfetched exactly when its coordinate is among the
reported failures, and in particular 3 failures out of 10 pending entries
report `succeeded = 7`. -/
theorem download_batch_isolation (L : TileLedger) (net : TileCoordinate → Bool)
    (st : List String) (hnd : (L.map fun e => e.coordinate).Nodup) :
    (download L net st).succeeded + (download L net st).failed.length =
        (pending L).length ∧
    (∀ e ∈ (download L net st).ledger,
      (e.fetched = false ↔ e.coordinate ∈ (download L net st).failed)) ∧
    ((pending L).length = 10 → (download L net st).failed.length = 3 →
      (download L net st).succeeded = 7) := by
  have hspec := downloadLoop_spec net (pending L) L st 0 []
  have hled := download_ledger_eq L net st
  have hcount :
      (download L net st).succeeded + (download L net st).failed.length =
        (pending L).length := by
    rw [download, hspec]
    simp only [Nat.zero_add, List.nil_append, List.length_map]
    rw [List.countP_eq_length_filter]
    exact filter_length_split _ _
  refine ⟨hcount, ?_, by intro h10 h3; omega⟩
  have hfail :
      (download L net st).failed =
        ((pending L).filter fun e => !net e.coordinate).map fun e =>
          e.coordinate := by
    rw [download, hspec]
    simp
  intro e2 he2
  rw [hled] at he2
  rw [List.mem_map] at he2
  obtain ⟨e, heL, rfl⟩ := he2
  have hinj := List.inj_on_of_nodup_map hnd
  by_cases hs :
      e.coordinate ∈
        (((pending L).filter fun x => net x.coordinate).map fun x =>
          x.coordinate)
  · rw [if_pos hs]
    simp only [List.mem_map, List.mem_filter, pending] at hs
    obtain ⟨e1, ⟨⟨he1L, _⟩, hnet1⟩, hco1⟩ := hs
    constructor
    · intro hff
      simp at hff
    · intro hmem
      rw [hfail] at hmem
      simp only [List.mem_map, List.mem_filter, pending] at hmem
      obtain ⟨e3, ⟨⟨he3L, _⟩, hnet3⟩, hco3⟩ := hmem
      have h13 : e1 = e3 := hinj he1L he3L (by rw [hco1, ← hco3])
      rw [h13] at hnet1
      rw [hnet1] at hnet3
      simp at hnet3
  · rw [if_neg hs]
    constructor
    · intro hff
      rw [hfail]
      have hpend : e ∈ pending L := by
        simp only [pending, List.mem_filter]
        exact ⟨heL, by simp [hff]⟩
      have hnn : net e.coordinate = false := by
        by_contra hb
        apply hs
        simp only [List.mem_map, List.mem_filter]
        exact ⟨e, ⟨hpend, by simpa using hb⟩, rfl⟩
      simp only [List.mem_map, List.mem_filter]
      exact ⟨e, ⟨hpend, by simp [hnn]⟩, rfl⟩
    · intro hmem
      rw [hfail] at hmem
      simp only [List.mem_map, List.mem_filter, pending] at hmem
      obtain ⟨e3, ⟨⟨he3L, hf3⟩, _⟩, hco3⟩ := hmem
      have h3e : e3 = e := hinj he3L heL hco3
      rw [← h3e]
      simpa using hf3

/-- Witness for C2 at a concrete three-entry batch where one request fails. -/
theorem download_batch_isolation_witness :
    (download
          [⟨⟨1, 0, 0⟩, false, "a"⟩, ⟨⟨1, 1, 0⟩, false, "b"⟩, ⟨⟨1, 0, 1⟩, false, "c"⟩]
          (fun c => c.x == 0) []).succeeded +
        (download
          [⟨⟨1, 0, 0⟩, false, "a"⟩, ⟨⟨1, 1, 0⟩, false, "b"⟩, ⟨⟨1, 0, 1⟩, false, "c"⟩]
          (fun c => c.x == 0) []).failed.length =
      (pending
        [⟨⟨1, 0, 0⟩, false, "a"⟩, ⟨⟨1, 1, 0⟩, false, "b"⟩,
          ⟨⟨1, 0, 1⟩, false, "c"⟩]).length ∧
    (∀ e ∈ (download
          [⟨⟨1, 0, 0⟩, false, "a"⟩, ⟨⟨1, 1, 0⟩, false, "b"⟩, ⟨⟨1, 0, 1⟩, false, "c"⟩]
          (fun c => c.x == 0) []).ledger,
      (e.fetched = false ↔
        e.coordinate ∈ (download
          [⟨⟨1, 0, 0⟩, false, "a"⟩, ⟨⟨1, 1, 0⟩, false, "b"⟩, ⟨⟨1, 0, 1⟩, false, "c"⟩]
          (fun c => c.x == 0) []).failed)) ∧
    ((pending
        [⟨⟨1, 0, 0⟩, false, "a"⟩, ⟨⟨1, 1, 0⟩, false, "b"⟩,
          ⟨⟨1, 0, 1⟩, false, "c"⟩]).length = 10 →
      (download
          [⟨⟨1, 0, 0⟩, false, "a"⟩, ⟨⟨1, 1, 0⟩, false, "b"⟩, ⟨⟨1, 0, 1⟩, false, "c"⟩]
          (fun c => c.x == 0) []).failed.length = 3 →
      (download
          [⟨⟨1, 0, 0⟩, false, "a"⟩, ⟨⟨1, 1, 0⟩, false, "b"⟩, ⟨⟨1, 0, 1⟩, false, "c"⟩]
          (fun c => c.x == 0) []).succeeded = 7) :=
  download_batch_isolation
    [⟨⟨1, 0, 0⟩, false, "a"⟩, ⟨⟨1, 1, 0⟩, false, "b"⟩, ⟨⟨1, 0, 1⟩, false, "c"⟩]
    (fun c => c.x == 0) [] (by decide)

/-! Coverage of the planner. -/

theorem paddingAt_nonneg (padding : ℚ) (z : ℕ) (h : 0 ≤ padding) :
    0 ≤ paddingAt padding z := by
  unfold paddingAt
  positivity

theorem mem_planZoom (points : List Point) (padding : ℚ) (z : ℕ) (p : Point)
    (hp : p ∈ points) (hpad : 0 ≤ padding) :
    project p z ∈ planZoom points padding z := by
  have hpadZ : 0 ≤ paddingAt padding z := paddingAt_nonneg padding z hpad
  have hminlat : listMinQ (points.map Point.latitude) ≤ p.latitude :=
    listMinQ_le _ _ (List.mem_map_of_mem Point.latitude hp)
  have hmaxlat : p.latitude ≤ listMaxQ (points.map Point.latitude) :=
    le_listMaxQ _ _ (List.mem_map_of_mem Point.latitude hp)
  have hminlon : listMinQ (points.map Point.longitude) ≤ p.longitude :=
    listMinQ_le _ _ (List.mem_map_of_mem Point.longitude hp)
  have hmaxlon : p.longitude ≤ listMaxQ (points.map Point.longitude) :=
    le_listMaxQ _ _ (List.mem_map_of_mem Point.longitude hp)
  have hx1 :
      xIndex z (listMinQ (points.map Point.longitude) - paddingAt padding z) ≤
        xIndex z p.longitude :=
    xIndex_mono z (by linarith)
  have hx2 :
      xIndex z p.longitude ≤
        xIndex z (listMaxQ (points.map Point.longitude) + paddingAt padding z) :=
    xIndex_mono z (by linarith)
  have hy1 :
      yIndex z p.latitude ≤
        yIndex z (listMinQ (points.map Point.latitude) - paddingAt padding z) :=
    yIndex_anti z (by linarith)
  have hy2 :
      yIndex z (listMaxQ (points.map Point.latitude) + paddingAt padding z) ≤
        yIndex z p.latitude :=
    yIndex_anti z (by linarith)
  unfold planZoom
  dsimp only [project]
  apply mem_tileSpan
  · exact le_trans (le_trans (min_le_left _ _) (min_le_left _ _)) hx1
  · exact le_trans hx2 (le_trans (le_max_right _ _) (le_max_left _ _))
  · exact le_trans (le_trans (min_le_right _ _) (min_le_left _ _)) hy2
  · exact le_trans hy1 (le_trans (le_max_left _ _) (le_max_left _ _))

/-- Claim C1 (amended to nonnegative padding): every input point, projected
at every zoom from 0 to `maxZoom`, yields a tile coordinate that is a member
of the planned set. -/
theorem plan_covers_point (points : List Point) (padding : ℚ) (maxZoom z : ℕ)
    (p : Point) (hp : p ∈ points) (hpad : 0 ≤ padding) (hz : z ≤ maxZoom) :
    project p z ∈ plan points padding maxZoom := by
  simp only [plan, List.mem_dedup, List.mem_flatMap, List.mem_range]
  exact ⟨z, by omega, mem_planZoom points padding z p hp hpad⟩

/-- Witness for the amended C1 at a concrete point set. -/
theorem plan_covers_point_witness :
    project ⟨0, 0⟩ 1 ∈ plan [⟨0, 0⟩] 8 1 :=
  plan_covers_point [⟨0, 0⟩] 8 1 1 ⟨0, 0⟩ (by simp) (by norm_num) le_rfl

/-- Counterexample to claim C1 as stated (for every padding): with the
negative padding -12 — which the command line accepts, `--padding` being a
plain int — the padded bounding box of the two points shrinks past them, and
the first point's tile at zoom 2 is outside the planned set. -/
theorem plan_coverage_counterexample :
    (⟨0, -100⟩ : Point) ∈ [(⟨0, -100⟩ : Point), ⟨0, 100⟩] ∧ (2 : ℕ) ≤ 2 ∧
    project ⟨0, -100⟩ 2 ∉ plan [⟨0, -100⟩, ⟨0, 100⟩] (-12) 2 := by
  refine ⟨by simp, le_rfl, ?_⟩
  norm_num [plan, planZoom, paddingAt, listMinQ, listMaxQ, project, xIndex, yIndex,
    clampIndex, clampLat, mercator, MERCATOR_LIMIT, tileSpan, List.range_succ]
  intros
  omega

/-! Re-running the whole pipeline. -/

theorem tracked_map_preserve (L : TileLedger) (f : TileEntry → TileEntry)
    (hf : ∀ e, (f e).coordinate = e.coordinate) (c : TileCoordinate) :
    tracked (L.map f) c = tracked L c := by
  simp only [tracked, List.any_map]
  congr 1
  funext e
  simp [Function.comp, hf e]

theorem tracked_reconcile (L : TileLedger) (st : List String) (c : TileCoordinate) :
    tracked (reconcile L st).1 c = tracked L c := by
  apply tracked_map_preserve
  intro e
  split <;> rfl

theorem tracked_download (L : TileLedger) (net : TileCoordinate → Bool)
    (st : List String) (c : TileCoordinate) :
    tracked (download L net st).ledger c = tracked L c := by
  rw [download_ledger_eq]
  apply tracked_map_preserve
  intro e
  split <;> rfl

theorem download_all_fetched (L : TileLedger) (net : TileCoordinate → Bool)
    (st : List String) (hnet : ∀ c, net c = true) :
    ∀ e ∈ (download L net st).ledger, e.fetched = true := by
  rw [download_ledger_eq]
  intro e he
  rw [List.mem_map] at he
  obtain ⟨e0, he0, rfl⟩ := he
  by_cases hf : e0.fetched = true
  · split <;> simp [hf]
  · have hpend : e0 ∈ pending L := by
      simp only [pending, List.mem_filter]
      exact ⟨he0, by simp [hf]⟩
    rw [if_pos]
    rw [List.mem_map]
    exact ⟨e0, by rw [List.mem_filter]; exact ⟨hpend, by simp [hnet]⟩, rfl⟩

theorem reconcile_count_zero (L : TileLedger) (st : List String)
    (h : ∀ e ∈ L, e.fetched = true) : (reconcile L st).2 = 0 := by
  simp only [reconcile, List.length_eq_zero]
  rw [List.filter_eq_nil_iff]
  intro e he
  rw [List.mem_map] at he
  obtain ⟨e0, he0, rfl⟩ := he
  have hf := h e0 he0
  simp [hf]

/-- Claim C5 (amended): re-running `create`+`prune` reports 0 missing tiles
the second time once the first run's `download` has been executed and every
request succeeded; without that download step in between, the second `prune`
simply repeats the first count (see the counterexample). -/
theorem create_prune_rerun_after_download (points : List Point) (padding : ℚ)
    (maxZoom : ℕ) (storage0 : List String) :
    (reconcile
        (seed
          (download (reconcile (seed [] (plan points padding maxZoom)) storage0).1
              (fun _ => true) storage0).ledger
          (plan points padding maxZoom))
        (download (reconcile (seed [] (plan points padding maxZoom)) storage0).1
            (fun _ => true) storage0).storage).2 = 0 := by
  have hall :=
    download_all_fetched (reconcile (seed [] (plan points padding maxZoom)) storage0).1
      (fun _ => true) storage0 (fun _ => rfl)
  have htr : ∀ c ∈ plan points padding maxZoom,
      tracked
        (download (reconcile (seed [] (plan points padding maxZoom)) storage0).1
            (fun _ => true) storage0).ledger c = true := by
    intro c hc
    rw [tracked_download, tracked_reconcile]
    exact tracked_seed_of_mem _ _ _ hc
  rw [seed_eq_of_all_tracked _ _ htr]
  exact reconcile_count_zero _ _ hall

/-- Counterexample to claim C5 as stated: `create`+`prune` twice in a row
with one planned tile, an empty storage and no download in between — the
second `prune` still reports 1 missing tile, not 0. -/
theorem create_prune_rerun_counterexample :
    (reconcile
        (seed (reconcile (seed [] (plan [⟨0, 0⟩] 8 0)) []).1 (plan [⟨0, 0⟩] 8 0))
        []).2 ≠ 0 := by
  have hplan : plan [(⟨0, 0⟩ : Point)] 8 0 = [⟨0, 0, 0⟩] := by
    norm_num [plan, planZoom, paddingAt, listMinQ, listMaxQ, project, xIndex, yIndex,
      clampIndex, clampLat, mercator, MERCATOR_LIMIT, tileSpan, List.range_succ]
  rw [hplan]
  decide

/-! The `--include` argument and the coordinate list. -/

/-- Claim C10, evaluated at the failing input: a run with `--include p1`
raises an AttributeError at `create.py` line 53 (argparse has already turned
the value into a list, and a list has no `split`), so the coordinate list is
never built and `tiles.create` is never reached. -/
theorem runCoords_include_crashes :
    runCoords (some "p1") [⟨"l1", "Language One", 10, 20⟩] =
      Except.error "AttributeError: list object has no attribute split" := rfl

/-- The intended behaviour behind claim C10: whenever the run does reach the
coordinate collection, the list it hands on is exactly one pair per
LanguageTable row, whatever `--include` was. -/
theorem runCoords_ok_all_rows (inc : Option String) (rows : List LanguageRow)
    (out : List (ℚ × ℚ)) (h : runCoords inc rows = Except.ok out) :
    out = rows.map fun r => (r.latitude, r.longitude) := by
  unfold runCoords at h
  cases hi : includeLine53 (registerInclude inc) with
  | error e =>
    rw [hi] at h
    simp at h
  | ok v =>
    rw [hi] at h
    simp only [Except.ok.injEq] at h
    rw [← h]
    rfl

end CldfOffline
